import Mathlib

/-!
Shallow embedding of the primitive core of the uiua runtime
(`src/primitive/mod.rs`): the primitive registry, the inverse table, the
format-name resolver (`from_format_name`, `from_format_name_multi`), and an
executable interpreter for the stack/error semantics of the dispatched
primitives needed by the claims (`Try`, `Assert`, `Break`, `Gen`, `Rand`,
`Tag`, and a few stack primitives).

Conventions:
- Rust strings are modelled as `List Char`; Rust's byte-oriented
  `str::len` is modelled by `byteLen` (UTF-8 size of each scalar).
- The primitive registry *data* (the `defs.rs` module declared by
  `mod defs;`) is not part of the sources; the variant list is recovered
  from the exhaustive `match` in `Primitive::run` and the `Display`
  implementation, and the name/glyph table is modelled from the spec
  (see `Primitive.names`).
- Machine floats (`f64`) are modelled as rationals; the random-number
  library and `f64` bit casts are external collaborators, modelled as an
  explicit `Externals` parameter of the interpreter.
-/

/-- Modelled from the spec: system primitives (`Primitive::Sys(io)`); only the
two system ops named in the sources (`&sl`, `&tcpc`) are represented. They
carry text names and no glyph. -/
inductive SysOp where
  | Sl
  | TcpC
  deriving DecidableEq

/-- The closed primitive enumeration. The variant list is taken from the
exhaustive `match` in `Primitive::run` (src/primitive/mod.rs, lines 269-589).
Rust's `Primitive::Type` is renamed `TypeOf` because `Type` is reserved in
Lean. -/
inductive Primitive where
  | Eta | Pi | Tau | Infinity
  | Identity | Gap
  | Not | Neg | Abs | Sign | Sqrt | Sin | Cos | Asin | Acos
  | Floor | Ceil | Round
  | Eq | Ne | Lt | Le | Gt | Ge
  | Add | Sub | Mul | Div | Mod | Pow | Log | Min | Max | Atan
  | Match | Join
  | Transpose | InvTranspose
  | Keep | Unkeep | Take | Untake | Drop | Undrop
  | Rotate | Couple | Uncouple
  | Rise | Fall
  | Pick | Unpick | Select | Unselect
  | Windows | Where | InvWhere
  | Classify | Deduplicate | Member | Find | IndexOf
  | Box | Unbox | Call | Parse | Range | Reverse | Deshape
  | First | Last | Len | Shape | Bits | InverseBits
  | Fold | Reduce | Each | Rows | Distribute | Table | Cross | Scan
  | Repeat | Level | Group | Partition
  | Reshape | Break | Recur
  | Dup | Flip | Over | Pop | Roll | Unroll | Dip | Restack
  | Invert | Under | Fill | Bind
  | Both | Fork | Bracket | If
  | Try | Assert
  | Rand | Gen | Deal | Use
  | Tag | TypeOf | Sig
  | Spawn | Wait | Now
  | Trace | InvTrace | Dump
  | Sys (op : SysOp)

/-- Numbering of the variants in declaration order, used to derive decidable
equality (the structural `deriving` handler overflows on an enumeration of
this size). -/
def Primitive.toNat : Primitive → Nat
  | .Eta => 0 | .Pi => 1 | .Tau => 2 | .Infinity => 3
  | .Identity => 4 | .Gap => 5
  | .Not => 6 | .Neg => 7 | .Abs => 8 | .Sign => 9 | .Sqrt => 10
  | .Sin => 11 | .Cos => 12 | .Asin => 13 | .Acos => 14
  | .Floor => 15 | .Ceil => 16 | .Round => 17
  | .Eq => 18 | .Ne => 19 | .Lt => 20 | .Le => 21 | .Gt => 22 | .Ge => 23
  | .Add => 24 | .Sub => 25 | .Mul => 26 | .Div => 27 | .Mod => 28
  | .Pow => 29 | .Log => 30 | .Min => 31 | .Max => 32 | .Atan => 33
  | .Match => 34 | .Join => 35
  | .Transpose => 36 | .InvTranspose => 37
  | .Keep => 38 | .Unkeep => 39 | .Take => 40 | .Untake => 41
  | .Drop => 42 | .Undrop => 43
  | .Rotate => 44 | .Couple => 45 | .Uncouple => 46
  | .Rise => 47 | .Fall => 48
  | .Pick => 49 | .Unpick => 50 | .Select => 51 | .Unselect => 52
  | .Windows => 53 | .Where => 54 | .InvWhere => 55
  | .Classify => 56 | .Deduplicate => 57 | .Member => 58 | .Find => 59
  | .IndexOf => 60
  | .Box => 61 | .Unbox => 62 | .Call => 63 | .Parse => 64 | .Range => 65
  | .Reverse => 66 | .Deshape => 67
  | .First => 68 | .Last => 69 | .Len => 70 | .Shape => 71 | .Bits => 72
  | .InverseBits => 73
  | .Fold => 74 | .Reduce => 75 | .Each => 76 | .Rows => 77
  | .Distribute => 78 | .Table => 79 | .Cross => 80 | .Scan => 81
  | .Repeat => 82 | .Level => 83 | .Group => 84 | .Partition => 85
  | .Reshape => 86 | .Break => 87 | .Recur => 88
  | .Dup => 89 | .Flip => 90 | .Over => 91 | .Pop => 92 | .Roll => 93
  | .Unroll => 94 | .Dip => 95 | .Restack => 96
  | .Invert => 97 | .Under => 98 | .Fill => 99 | .Bind => 100
  | .Both => 101 | .Fork => 102 | .Bracket => 103 | .If => 104
  | .Try => 105 | .Assert => 106
  | .Rand => 107 | .Gen => 108 | .Deal => 109 | .Use => 110
  | .Tag => 111 | .TypeOf => 112 | .Sig => 113
  | .Spawn => 114 | .Wait => 115 | .Now => 116
  | .Trace => 117 | .InvTrace => 118 | .Dump => 119
  | .Sys .Sl => 120 | .Sys .TcpC => 121

/-- Left inverse of `Primitive.toNat`. -/
def Primitive.ofNat : Nat → Primitive
  | 0 => .Eta | 1 => .Pi | 2 => .Tau | 3 => .Infinity
  | 4 => .Identity | 5 => .Gap
  | 6 => .Not | 7 => .Neg | 8 => .Abs | 9 => .Sign | 10 => .Sqrt
  | 11 => .Sin | 12 => .Cos | 13 => .Asin | 14 => .Acos
  | 15 => .Floor | 16 => .Ceil | 17 => .Round
  | 18 => .Eq | 19 => .Ne | 20 => .Lt | 21 => .Le | 22 => .Gt | 23 => .Ge
  | 24 => .Add | 25 => .Sub | 26 => .Mul | 27 => .Div | 28 => .Mod
  | 29 => .Pow | 30 => .Log | 31 => .Min | 32 => .Max | 33 => .Atan
  | 34 => .Match | 35 => .Join
  | 36 => .Transpose | 37 => .InvTranspose
  | 38 => .Keep | 39 => .Unkeep | 40 => .Take | 41 => .Untake
  | 42 => .Drop | 43 => .Undrop
  | 44 => .Rotate | 45 => .Couple | 46 => .Uncouple
  | 47 => .Rise | 48 => .Fall
  | 49 => .Pick | 50 => .Unpick | 51 => .Select | 52 => .Unselect
  | 53 => .Windows | 54 => .Where | 55 => .InvWhere
  | 56 => .Classify | 57 => .Deduplicate | 58 => .Member | 59 => .Find
  | 60 => .IndexOf
  | 61 => .Box | 62 => .Unbox | 63 => .Call | 64 => .Parse | 65 => .Range
  | 66 => .Reverse | 67 => .Deshape
  | 68 => .First | 69 => .Last | 70 => .Len | 71 => .Shape | 72 => .Bits
  | 73 => .InverseBits
  | 74 => .Fold | 75 => .Reduce | 76 => .Each | 77 => .Rows
  | 78 => .Distribute | 79 => .Table | 80 => .Cross | 81 => .Scan
  | 82 => .Repeat | 83 => .Level | 84 => .Group | 85 => .Partition
  | 86 => .Reshape | 87 => .Break | 88 => .Recur
  | 89 => .Dup | 90 => .Flip | 91 => .Over | 92 => .Pop | 93 => .Roll
  | 94 => .Unroll | 95 => .Dip | 96 => .Restack
  | 97 => .Invert | 98 => .Under | 99 => .Fill | 100 => .Bind
  | 101 => .Both | 102 => .Fork | 103 => .Bracket | 104 => .If
  | 105 => .Try | 106 => .Assert
  | 107 => .Rand | 108 => .Gen | 109 => .Deal | 110 => .Use
  | 111 => .Tag | 112 => .TypeOf | 113 => .Sig
  | 114 => .Spawn | 115 => .Wait | 116 => .Now
  | 117 => .Trace | 118 => .InvTrace | 119 => .Dump
  | 120 => .Sys .Sl | _ => .Sys .TcpC

theorem Primitive.ofNat_toNat (p : Primitive) : Primitive.ofNat p.toNat = p := by
  cases p with
  | Sys op => cases op <;> rfl
  | _ => rfl

instance : DecidableEq Primitive := fun a b =>
  if h : a.toNat = b.toNat then
    .isTrue (by
      have h2 := congrArg Primitive.ofNat h
      rwa [Primitive.ofNat_toNat, Primitive.ofNat_toNat] at h2)
  else
    .isFalse (fun he => h (he ▸ rfl))

/-- The names of a primitive (`PrimNames`). The `ascii`-token component of the
Rust struct is omitted: none of the embedded operations read it
(`from_format_name` uses only `text` and `glyph`). -/
structure PrimNames where
  text : String
  glyph : Option Char
  deriving DecidableEq

/-- Modelled from the spec: the name/glyph data of the registry lives in the
missing `defs.rs`. Which variants have *no* names at all is recovered from the
sources (the `Display` fallback arms, lines 105-133, are reached only when
`glyph`, `ascii` and `name` are all `None`); the concrete text names and
glyphs follow the spec's resolver examples (§4.2, §8: `rev` ↦ Reverse,
`resh` ↦ Reshape, `tab` ↦ Table, `kee` ↦ Keep, short names `id`, `ga`, `di`,
`pi`, `&n`) and the language's documented surfaces. Glyphs of arithmetic and
pure-stack primitives are ASCII; all other glyphs are non-ASCII. -/
def Primitive.names : Primitive → Option PrimNames
  | .Eta => some ⟨"eta", some 'η'⟩
  | .Pi => some ⟨"pi", some 'π'⟩
  | .Tau => some ⟨"tau", some 'τ'⟩
  | .Infinity => some ⟨"infinity", some '∞'⟩
  | .Identity => some ⟨"identity", some '∘'⟩
  | .Gap => some ⟨"gap", some '⋅'⟩
  | .Not => some ⟨"not", some '¬'⟩
  | .Neg => some ⟨"negate", some '¯'⟩
  | .Abs => some ⟨"absolute", some '⌵'⟩
  | .Sign => some ⟨"sign", some '±'⟩
  | .Sqrt => some ⟨"sqrt", some '√'⟩
  | .Sin => some ⟨"sine", some '∿'⟩
  | .Cos => none
  | .Asin => none
  | .Acos => none
  | .Floor => some ⟨"floor", some '⌊'⟩
  | .Ceil => some ⟨"ceiling", some '⌈'⟩
  | .Round => some ⟨"round", some '⁅'⟩
  | .Eq => some ⟨"equals", some '='⟩
  | .Ne => some ⟨"not equals", some '≠'⟩
  | .Lt => some ⟨"less than", some '<'⟩
  | .Le => some ⟨"less or equal", some '≤'⟩
  | .Gt => some ⟨"greater than", some '>'⟩
  | .Ge => some ⟨"greater or equal", some '≥'⟩
  | .Add => some ⟨"add", some '+'⟩
  | .Sub => some ⟨"subtract", some '-'⟩
  | .Mul => some ⟨"multiply", some '×'⟩
  | .Div => some ⟨"divide", some '÷'⟩
  | .Mod => some ⟨"modulus", some '◿'⟩
  | .Pow => some ⟨"power", some 'ⁿ'⟩
  | .Log => some ⟨"logarithm", some 'ₙ'⟩
  | .Min => some ⟨"minimum", some '↧'⟩
  | .Max => some ⟨"maximum", some '↥'⟩
  | .Atan => some ⟨"atangent", some '∠'⟩
  | .Match => some ⟨"match", some '≅'⟩
  | .Join => some ⟨"join", some '⊂'⟩
  | .Transpose => some ⟨"transpose", some '⍉'⟩
  | .InvTranspose => none
  | .Keep => some ⟨"keep", some '▽'⟩
  | .Unkeep => none
  | .Take => some ⟨"take", some '↙'⟩
  | .Untake => none
  | .Drop => some ⟨"drop", some '↘'⟩
  | .Undrop => none
  | .Rotate => some ⟨"rotate", some '↻'⟩
  | .Couple => some ⟨"couple", some '⊟'⟩
  | .Uncouple => none
  | .Rise => some ⟨"rise", some '⍏'⟩
  | .Fall => some ⟨"fall", some '⍖'⟩
  | .Pick => some ⟨"pick", some '⊡'⟩
  | .Unpick => none
  | .Select => some ⟨"select", some '⊏'⟩
  | .Unselect => none
  | .Windows => some ⟨"windows", some '◫'⟩
  | .Where => some ⟨"where", some '⊚'⟩
  | .InvWhere => none
  | .Classify => some ⟨"classify", some '⊛'⟩
  | .Deduplicate => some ⟨"deduplicate", some '⊝'⟩
  | .Member => some ⟨"member", some '∊'⟩
  | .Find => some ⟨"find", some '⌕'⟩
  | .IndexOf => some ⟨"indexof", some '⊗'⟩
  | .Box => some ⟨"box", some '□'⟩
  | .Unbox => some ⟨"unbox", some '⊔'⟩
  | .Call => some ⟨"call", some '!'⟩
  | .Parse => some ⟨"parse", none⟩
  | .Range => some ⟨"range", some '⇡'⟩
  | .Reverse => some ⟨"reverse", some '⇌'⟩
  | .Deshape => some ⟨"deshape", some '♭'⟩
  | .First => some ⟨"first", some '⊢'⟩
  | .Last => none
  | .Len => some ⟨"length", some '⧻'⟩
  | .Shape => some ⟨"shape", some '△'⟩
  | .Bits => some ⟨"bits", some '⋯'⟩
  | .InverseBits => none
  | .Fold => some ⟨"fold", some '∧'⟩
  | .Reduce => some ⟨"reduce", some '/'⟩
  | .Each => some ⟨"each", some '∵'⟩
  | .Rows => some ⟨"rows", some '≡'⟩
  | .Distribute => some ⟨"distribute", some '∺'⟩
  | .Table => some ⟨"table", some '⊞'⟩
  | .Cross => some ⟨"cross", some '⊠'⟩
  | .Scan => some ⟨"scan", some '\\'⟩
  | .Repeat => some ⟨"repeat", some '⍥'⟩
  | .Level => some ⟨"level", some '⍚'⟩
  | .Group => some ⟨"group", some '⊕'⟩
  | .Partition => some ⟨"partition", some '⊜'⟩
  | .Reshape => some ⟨"reshape", some '↯'⟩
  | .Break => some ⟨"break", some '⎋'⟩
  | .Recur => some ⟨"recur", some '↬'⟩
  | .Dup => some ⟨"duplicate", some '.'⟩
  | .Flip => some ⟨"flip", some '∶'⟩
  | .Over => some ⟨"over", some ','⟩
  | .Pop => some ⟨"pop", some ';'⟩
  | .Roll => some ⟨"roll", some '↷'⟩
  | .Unroll => some ⟨"unroll", some '↶'⟩
  | .Dip => some ⟨"dip", some '⊙'⟩
  | .Restack => some ⟨"restack", some '⇵'⟩
  | .Invert => some ⟨"invert", some '⍘'⟩
  | .Under => some ⟨"under", some '⍜'⟩
  | .Fill => some ⟨"fill", some '⬚'⟩
  | .Bind => some ⟨"bind", none⟩
  | .Both => some ⟨"both", some '∩'⟩
  | .Fork => some ⟨"fork", some '⊃'⟩
  | .Bracket => some ⟨"bracket", some '⊓'⟩
  | .If => some ⟨"if", some '?'⟩
  | .Try => some ⟨"try", some '⍣'⟩
  | .Assert => some ⟨"assert", some '⍤'⟩
  | .Rand => some ⟨"rand", some '⚂'⟩
  | .Gen => some ⟨"gen", none⟩
  | .Deal => some ⟨"deal", none⟩
  | .Use => some ⟨"use", none⟩
  | .Tag => some ⟨"tag", none⟩
  | .TypeOf => some ⟨"type", none⟩
  | .Sig => some ⟨"signature", none⟩
  | .Spawn => some ⟨"spawn", none⟩
  | .Wait => some ⟨"wait", none⟩
  | .Now => some ⟨"now", none⟩
  | .Trace => some ⟨"trace", some '~'⟩
  | .InvTrace => none
  | .Dump => some ⟨"dump", none⟩
  | .Sys .Sl => some ⟨"&sl", none⟩
  | .Sys .TcpC => some ⟨"&tcpc", none⟩

/-- The enumeration order of `Primitive::all()` (the `Sequence` derive in the
missing `defs.rs`); declaration order of the variants above. -/
def Primitive.all : List Primitive :=
  [Primitive.Eta, Primitive.Pi, Primitive.Tau, Primitive.Infinity,
   Primitive.Identity, Primitive.Gap,
   Primitive.Not, Primitive.Neg, Primitive.Abs, Primitive.Sign,
   Primitive.Sqrt, Primitive.Sin, Primitive.Cos, Primitive.Asin,
   Primitive.Acos, Primitive.Floor, Primitive.Ceil, Primitive.Round,
   Primitive.Eq, Primitive.Ne, Primitive.Lt, Primitive.Le, Primitive.Gt,
   Primitive.Ge, Primitive.Add, Primitive.Sub, Primitive.Mul, Primitive.Div,
   Primitive.Mod, Primitive.Pow, Primitive.Log, Primitive.Min, Primitive.Max,
   Primitive.Atan, Primitive.Match, Primitive.Join,
   Primitive.Transpose, Primitive.InvTranspose,
   Primitive.Keep, Primitive.Unkeep, Primitive.Take, Primitive.Untake,
   Primitive.Drop, Primitive.Undrop, Primitive.Rotate, Primitive.Couple,
   Primitive.Uncouple, Primitive.Rise, Primitive.Fall,
   Primitive.Pick, Primitive.Unpick, Primitive.Select, Primitive.Unselect,
   Primitive.Windows, Primitive.Where, Primitive.InvWhere,
   Primitive.Classify, Primitive.Deduplicate, Primitive.Member,
   Primitive.Find, Primitive.IndexOf, Primitive.Box, Primitive.Unbox,
   Primitive.Call, Primitive.Parse, Primitive.Range, Primitive.Reverse,
   Primitive.Deshape, Primitive.First, Primitive.Last, Primitive.Len,
   Primitive.Shape, Primitive.Bits, Primitive.InverseBits,
   Primitive.Fold, Primitive.Reduce, Primitive.Each, Primitive.Rows,
   Primitive.Distribute, Primitive.Table, Primitive.Cross, Primitive.Scan,
   Primitive.Repeat, Primitive.Level, Primitive.Group, Primitive.Partition,
   Primitive.Reshape, Primitive.Break, Primitive.Recur,
   Primitive.Dup, Primitive.Flip, Primitive.Over, Primitive.Pop,
   Primitive.Roll, Primitive.Unroll, Primitive.Dip, Primitive.Restack,
   Primitive.Invert, Primitive.Under, Primitive.Fill, Primitive.Bind,
   Primitive.Both, Primitive.Fork, Primitive.Bracket, Primitive.If,
   Primitive.Try, Primitive.Assert,
   Primitive.Rand, Primitive.Gen, Primitive.Deal, Primitive.Use,
   Primitive.Tag, Primitive.TypeOf, Primitive.Sig,
   Primitive.Spawn, Primitive.Wait, Primitive.Now,
   Primitive.Trace, Primitive.InvTrace, Primitive.Dump,
   Primitive.Sys SysOp.Sl, Primitive.Sys SysOp.TcpC]

theorem Primitive.mem_all (p : Primitive) : p ∈ Primitive.all := by
  cases p with
  | Sys op => cases op <;> decide
  | _ => decide

/-- The inverse table, transcribed from `Primitive::inverse`
(src/primitive/mod.rs lines 176-203). Note that `Couple => Uncouple` has no
mirror arm: `inverse(Uncouple)` falls into the catch-all and is `None`. -/
def Primitive.inverse : Primitive → Option Primitive
  | .Identity => some .Identity
  | .Flip => some .Flip
  | .Neg => some .Neg
  | .Not => some .Not
  | .Sin => some .Asin
  | .Cos => some .Acos
  | .Asin => some .Sin
  | .Acos => some .Cos
  | .Reverse => some .Reverse
  | .Transpose => some .InvTranspose
  | .InvTranspose => some .Transpose
  | .Bits => some .InverseBits
  | .InverseBits => some .Bits
  | .Couple => some .Uncouple
  | .Roll => some .Unroll
  | .Unroll => some .Roll
  | .Trace => some .InvTrace
  | .InvTrace => some .Trace
  | .Box => some .Unbox
  | .Unbox => some .Box
  | .Where => some .InvWhere
  | .InvWhere => some .Where
  | _ => none

/-- The primitives on which `Primitive::inverse` is defined (the left-hand
sides of the table arms). -/
def inverseDomain : List Primitive :=
  [Primitive.Identity, Primitive.Flip, Primitive.Neg, Primitive.Not,
   Primitive.Sin, Primitive.Cos, Primitive.Asin, Primitive.Acos,
   Primitive.Reverse, Primitive.Transpose, Primitive.InvTranspose,
   Primitive.Bits, Primitive.InverseBits, Primitive.Couple, Primitive.Roll,
   Primitive.Unroll, Primitive.Trace, Primitive.InvTrace, Primitive.Box,
   Primitive.Unbox, Primitive.Where, Primitive.InvWhere]

/-- Rust's `char::is_uppercase`, restricted to the ASCII fragment of Unicode
(every registry text name and every input in the claims is ASCII, where the
two notions coincide). -/
def charIsUppercase (c : Char) : Bool := c.isUpper

/-- Rust's `char::len_utf8`: the UTF-8 byte size of one Unicode scalar. -/
def rustUtf8Len (c : Char) : Nat :=
  if c.toNat < 0x80 then 1
  else if c.toNat < 0x800 then 2
  else if c.toNat < 0x10000 then 3
  else 4

/-- Rust's byte-oriented `str::len` on a string modelled as its scalar list. -/
def byteLen (s : List Char) : Nat := (s.map rustUtf8Len).sum

/-- The exact-name predicate of `from_format_name`:
`p.names().is_some_and(|n| n.text == name)`. -/
def textMatches (p : Primitive) (s : List Char) : Bool :=
  (p.names).any fun n => n.text.toList == s

/-- The candidate predicate of `from_format_name`'s prefix search:
`n.glyph.is_some_and(|u| u as u32 > 127) && n.text.starts_with(name)`. -/
def glyphPrefixMatches (p : Primitive) (s : List Char) : Bool :=
  (p.names).any fun n =>
    (n.glyph.any fun u => 127 < u.val) && s.isPrefixOf n.text.toList

/-- `Primitive::from_format_name` (src/primitive/mod.rs lines 205-234),
transcribed arm by arm: reject uppercase, reject byte length < 2, the fixed
short-name table, exact text match over `Primitive::all()`, reject byte
length < 3, then the prefix search whose first candidate is accepted iff it
is an exact match or the only candidate. -/
def fromFormatName (s : List Char) : Option Primitive :=
  if s.any charIsUppercase then none
  else if byteLen s < 2 then none
  else if s = "id".toList then some .Identity
  else if s = "ga".toList then some .Gap
  else if s = "di".toList then some .Dip
  else if s = "pi".toList then some .Pi
  else if s = "&n".toList then some .Now
  else
    match Primitive.all.find? (fun p => textMatches p s) with
    | some p => some p
    | none =>
      if byteLen s < 3 then none
      else
        match Primitive.all.filter (fun p => glyphPrefixMatches p s) with
        | [] => none
        | res :: rest =>
          if textMatches res s || rest.isEmpty then some res else none

/-- Modelled from the claim's words (C5), as stated: same staging as
`fromFormatName` but with no minimum length for the prefix search — reject
uppercase or byte length < 2, short-name table, exact text match, then the
prefix search over primitives with a non-ASCII glyph, returning `some` iff
the input equals a candidate's name exactly or exactly one candidate
matches. -/
def fromFormatNameClaimed (s : List Char) : Option Primitive :=
  if s.any charIsUppercase then none
  else if byteLen s < 2 then none
  else if s = "id".toList then some .Identity
  else if s = "ga".toList then some .Gap
  else if s = "di".toList then some .Dip
  else if s = "pi".toList then some .Pi
  else if s = "&n".toList then some .Now
  else
    match Primitive.all.find? (fun p => textMatches p s) with
    | some p => some p
    | none =>
      match (Primitive.all.filter fun p => glyphPrefixMatches p s).filter
          (fun p => textMatches p s) with
      | e :: _ => some e
      | [] =>
        match Primitive.all.filter fun p => glyphPrefixMatches p s with
        | [c] => some c
        | _ => none

/-- Modelled from the claim's words (C5), amended: identical to
`fromFormatNameClaimed` except that the prefix search is only attempted for
inputs of byte length at least 3 (shorter non-exact inputs resolve to
none). -/
def fromFormatNameSpec (s : List Char) : Option Primitive :=
  if s.any charIsUppercase then none
  else if byteLen s < 2 then none
  else if s = "id".toList then some .Identity
  else if s = "ga".toList then some .Gap
  else if s = "di".toList then some .Dip
  else if s = "pi".toList then some .Pi
  else if s = "&n".toList then some .Now
  else
    match Primitive.all.find? (fun p => textMatches p s) with
    | some p => some p
    | none =>
      if byteLen s < 3 then none
      else
        match (Primitive.all.filter fun p => glyphPrefixMatches p s).filter
            (fun p => textMatches p s) with
        | e :: _ => some e
        | [] =>
          match Primitive.all.filter fun p => glyphPrefixMatches p s with
          | [c] => some c
          | _ => none

/-- The descending length range `(2..=n).rev()` iterated by
`from_format_name_multi`: the list `[n, n-1, ..., 2]` (empty for `n < 2`). -/
def descLens : Nat → List Nat
  | 0 => []
  | 1 => []
  | n + 2 => (n + 2) :: descLens (n + 1)

/-- The inner `for len in ...` loop of `from_format_name_multi`: try the
candidate lengths in order, returning the first whose substring (at scalar
offset `start`) resolves via `fromFormatName`, together with that length. -/
def firstResolve (cs : List Char) (start : Nat) : List Nat → Option (Nat × Primitive)
  | [] => none
  | l :: ls =>
    match fromFormatName ((cs.drop start).take l) with
    | some p => some (l, p)
    | none => firstResolve cs start ls

/-- The `'outer: loop` of `from_format_name_multi`, with an explicit fuel
argument (one unit per committed segment; `cs.length` units always suffice
since every segment is at least 2 scalars long). Rust's byte-index slicing
`&name[indices[start]..indices[start+len]]` is scalar-position slicing, i.e.
`(cs.drop start).take len`. -/
def multiLoop (cs : List Char) : Nat → Nat → Option (List (Primitive × List Char))
  | 0, _ => none
  | fuel + 1, start =>
    if start = cs.length then some []
    else
      match firstResolve cs start (descLens (cs.length - start)) with
      | some (l, p) =>
        (multiLoop cs fuel (start + l)).map
          (fun rest => (p, (cs.drop start).take l) :: rest)
      | none => none

/-- `Primitive::from_format_name_multi` (src/primitive/mod.rs lines 236-259):
fail for fewer than 2 scalar positions, else greedily segment from offset 0. -/
def fromFormatNameMulti (cs : List Char) : Option (List (Primitive × List Char)) :=
  if cs.length < 2 then none
  else multiLoop cs cs.length 0

/-- Declarative characterization of the greedy segmentation:
`GreedySeg cs start segs` holds iff, starting at scalar offset `start`, the
string is consumed by repeatedly committing to the *longest* length
`2 ≤ len ≤ cs.length - start` whose substring resolves via `fromFormatName`
(all strictly longer lengths in range resolve to none), with no backtracking
across committed segments. -/
inductive GreedySeg (cs : List Char) : Nat → List (Primitive × List Char) → Prop where
  | done : GreedySeg cs cs.length []
  | step (start len : Nat) (p : Primitive) (rest : List (Primitive × List Char)) :
      2 ≤ len → len ≤ cs.length - start →
      fromFormatName ((cs.drop start).take len) = some p →
      (∀ l, len < l → l ≤ cs.length - start →
        fromFormatName ((cs.drop start).take l) = none) →
      GreedySeg cs (start + len) rest →
      GreedySeg cs start ((p, (cs.drop start).take len) :: rest)

mutual
/-- Runtime values, abstracted from the external Value layer: number scalars
(`f64` modelled as `Rat`), string payloads (for failure messages), and
function values. -/
inductive Value where
  | num : Rat → Value
  | str : String → Value
  | func : Fn → Value

/-- Modelled from the spec: a function value with a declared signature
(`args`/`outputs`) and a body, an instruction sequence (the external
`Function` type of `function.rs` is not in the sources). -/
inductive Fn where
  | mk (args outputs : Nat) (body : List Instr) : Fn

/-- One instruction of a function body: push a literal value, or run a
primitive. -/
inductive Instr where
  | push : Value → Instr
  | prim : Primitive → Instr
end

/-- Declared argument count of a function value. -/
def Fn.args : Fn → Nat
  | ⟨a, _, _⟩ => a

/-- Declared output count of a function value. -/
def Fn.outputs : Fn → Nat
  | ⟨_, o, _⟩ => o

/-- Body of a function value. -/
def Fn.body : Fn → List Instr
  | ⟨_, _, b⟩ => b

/-- The failure taxonomy of `UiuaError` as used by the embedded primitives:
`Break(level, span)` (loop-control signal), `Throw(value, span)` (from
`Assert`), generic failures carrying a message (from `as_nat`/`as_num`
conversions), and stack underflow (from `env.pop`). Spans are opaque
naturals. -/
inductive UiuaError where
  | break_ (levels : Nat) (span : Nat)
  | throw (v : Value) (span : Nat)
  | generic (msg : String) (span : Nat)
  | stackUnderflow (span : Nat)

/-- Modelled from the spec: `UiuaError::value()`, the failure payload pushed
by `Try` (`error.rs` is not in the sources): a user-thrown failure carries its
value, other failures carry their message. -/
def UiuaError.value : UiuaError → Value
  | .throw v _ => v
  | .break_ _ _ => .str "break"
  | .generic m _ => .str m
  | .stackUnderflow _ => .str "stack underflow"

/-- The part of the execution context (`Uiua`) the embedded primitives
touch: the operand stack (head = top), the process-wide `Tag` counter
(`NEXT_TAG`), the hidden per-unit `Rand` generator state, and the current
source span. -/
structure UiuaState where
  stack : List Value
  tagCounter : Nat
  rngState : Nat
  span : Nat

/-- The external random-number library (`rand::SmallRng`) and `f64` bit
casts, as abstract deterministic functions: the interpreter is parametrized
over any implementation. -/
structure Externals where
  seedFromU64 : Nat → Nat
  rngGenF64 : Nat → Rat × Nat
  rngGenU64 : Nat → Nat × Nat
  f64ToBits : Rat → Nat
  f64FromBits : Nat → Rat

/-- `env.push`. -/
def pushVal (v : Value) (st : UiuaState) : UiuaState :=
  { st with stack := v :: st.stack }

/-- Push a list of values in order (first element pushed first), as `Try`'s
`for val in backup { env.push(val) }`. -/
def pushList (vs : List Value) (st : UiuaState) : UiuaState :=
  vs.foldl (fun s v => pushVal v s) st

/-- `env.truncate_stack(bottom)` (`Vec::truncate` keeps the bottom `bottom`
values; a no-op when the stack is already shorter). -/
def truncateStack (bottom : Nat) (s : List Value) : List Value :=
  s.drop (s.length - bottom)

/-- Modelled from the spec: `env.clone_stack_top(n)` (`run.rs` is not in the
sources) — the snapshot of the top `n` operand values, listed bottom-first so
that re-pushing them in order restores their original order. -/
def cloneStackTop (n : Nat) (s : List Value) : List Value :=
  (s.take n).reverse

/-- `Value::as_nat`: a number scalar that is a non-negative integer. -/
def asNat : Value → Option Nat
  | .num q => if q.den = 1 ∧ 0 ≤ q.num then some q.num.toNat else none
  | _ => none

/-- `Value::as_num`: any number scalar. -/
def asNum : Value → Option Rat
  | .num q => some q
  | _ => none

/-- Modelled from the spec: `Value::signature().args` — a function value has
its declared arity, any other value has arity 0. -/
def Value.sigArgs : Value → Nat
  | .func f => f.args
  | _ => 0

/-- Executable semantics of an instruction sequence against a `UiuaState`,
transcribing the corresponding arms of `Primitive::run`
(src/primitive/mod.rs lines 269-591). The result is `none` when the fuel is
exhausted or an arm outside the embedded fragment is reached, and otherwise
`some (st, none)` for success or `some (st, some e)` for a failure raised
with the state at the point of failure (the Rust `env` is `&mut`, so a
failed call leaves its partial mutations behind — `Try` depends on this).
Function calls (`env.call`) execute the body of a function value and push
any other value, per the spec's constant-function convention; each call
consumes one unit of fuel. -/
def execBody (ext : Externals) : Nat → List Instr → UiuaState →
    Option (UiuaState × Option UiuaError)
  | _, [], st => some (st, none)
  | 0, _ :: _, _ => none
  | fuel + 1, .push v :: rest, st => execBody ext fuel rest (pushVal v st)
  | fuel + 1, .prim p :: rest, st =>
    match p with
    | .Identity =>
      -- env.touch_array_stack(): no effect on the modelled state
      execBody ext fuel rest st
    | .Dup =>
      match st.stack with
      | x :: s => execBody ext fuel rest { st with stack := x :: x :: s }
      | [] => some (st, some (.stackUnderflow st.span))
    | .Flip =>
      match st.stack with
      | a :: b :: s => execBody ext fuel rest { st with stack := b :: a :: s }
      | [_] => some ({ st with stack := [] }, some (.stackUnderflow st.span))
      | [] => some (st, some (.stackUnderflow st.span))
    | .Pop =>
      match st.stack with
      | _ :: s => execBody ext fuel rest { st with stack := s }
      | [] => some (st, some (.stackUnderflow st.span))
    | .Call =>
      match st.stack with
      | f :: s =>
        let st1 := { st with stack := s }
        match (match f with
               | .func fn => execBody ext fuel fn.body st1
               | v => some (pushVal v st1, none)) with
        | none => none
        | some (st2, none) => execBody ext fuel rest st2
        | some (st2, some e) => some (st2, some e)
      | [] => some (st, some (.stackUnderflow st.span))
    | .Break =>
      match st.stack with
      | v :: s =>
        let st1 := { st with stack := s }
        match asNat v with
        | none => some (st1, some (.generic "Break expects a natural number" st.span))
        | some n =>
          if 0 < n then some (st1, some (.break_ (n - 1) st.span))
          else execBody ext fuel rest st1
      | [] => some (st, some (.stackUnderflow st.span))
    | .Assert =>
      match st.stack with
      | msg :: cond :: s =>
        let st1 := { st with stack := s }
        if asNat cond = some 1 then execBody ext fuel rest st1
        else some (st1, some (.throw msg st.span))
      | [_] => some ({ st with stack := [] }, some (.stackUnderflow st.span))
      | [] => some (st, some (.stackUnderflow st.span))
    | .Rand =>
      let (v, r) := ext.rngGenF64 st.rngState
      execBody ext fuel rest
        { st with stack := Value.num v :: st.stack, rngState := r }
    | .Gen =>
      match st.stack with
      | seed :: s =>
        let st1 := { st with stack := s }
        match asNum seed with
        | none => some (st1, some (.generic "Gen expects a number" st.span))
        | some q =>
          let r0 := ext.seedFromU64 (ext.f64ToBits q)
          let (v, r1) := ext.rngGenF64 r0
          let (b, _) := ext.rngGenU64 r1
          execBody ext fuel rest
            { st1 with stack := Value.num (ext.f64FromBits b) :: Value.num v :: s }
      | [] => some (st, some (.stackUnderflow st.span))
    | .Tag =>
      execBody ext fuel rest
        { st with stack := Value.num (st.tagCounter : Rat) :: st.stack,
                  tagCounter := st.tagCounter + 1 }
    | .Try =>
      match st.stack with
      | f :: handler :: s =>
        let st1 := { st with stack := s }
        let fargs := Value.sigArgs f
        let backup := cloneStackTop fargs s
        let bottom := s.length - fargs
        match (match f with
               | .func fn => execBody ext fuel fn.body st1
               | v => some (pushVal v st1, none)) with
        | none => none
        | some (st2, none) => execBody ext fuel rest st2
        | some (st2, some e) =>
          let st5 := pushList backup (pushVal e.value
            { st2 with stack := truncateStack bottom st2.stack })
          match (match handler with
                 | .func fn => execBody ext fuel fn.body st5
                 | v => some (pushVal v st5, none)) with
          | none => none
          | some (st6, none) => execBody ext fuel rest st6
          | some (st6, some e2) => some (st6, some e2)
      | [_] => some ({ st with stack := [] }, some (.stackUnderflow st.span))
      | [] => some (st, some (.stackUnderflow st.span))
    | _ =>
      -- primitives whose semantics lives wholly in external collaborators
      -- (pervasive/structural/combinator arms) are outside the embedded
      -- fragment
      none

/-- Modelled from the spec: `env.call(f)` (`run.rs` is not in the sources) —
execute the body of a function value; any other value is self-evaluating and
is pushed back (the spec's `constant(v)` function convention). -/
def callValue (ext : Externals) (fuel : Nat) (v : Value) (st : UiuaState) :
    Option (UiuaState × Option UiuaError) :=
  match v with
  | .func fn => execBody ext fuel fn.body st
  | v => some (pushVal v st, none)

/-- The `(value, next-seed)` pair computed by `Gen` from a seed, read off the
`Gen` arm (lines 531-539): seed a fresh generator from the seed's bits, draw
an `f64` value, then draw a `u64` reinterpreted as the next seed. -/
def genPair (ext : Externals) (q : Rat) : Rat × Rat :=
  let r0 := ext.seedFromU64 (ext.f64ToBits q)
  let (v, r1) := ext.rngGenF64 r0
  let (b, _) := ext.rngGenU64 r1
  (v, ext.f64FromBits b)

/-- The stack segment produced by `n` consecutive `Tag` instructions starting
from counter value `tc`: `[num (tc+n-1), ..., num (tc+1), num tc]`
(top first). -/
def tagStack (tc : Nat) : Nat → List Value
  | 0 => []
  | n + 1 => Value.num ((tc + n : Nat) : Rat) :: tagStack tc n

/-- A concrete implementation of the external random library, used to
instantiate the parametrized theorems. -/
def extDefault : Externals :=
  ⟨id, fun r => ((r : Rat), r + 1), fun r => (r, r + 1),
   fun q => q.num.toNat, fun n => (n : Rat)⟩
/-- C1 counterexample: `inverse` is defined at `Couple`
(`inverse(Couple) = Some(Uncouple)`), yet applying `inverse` to the result
gives `None`, not `Some(Couple)`: the table has no `Uncouple` arm. -/
theorem c1_counterexample :
    Primitive.inverse .Couple = some .Uncouple ∧
      Primitive.inverse .Uncouple = none :=
  ⟨rfl, rfl⟩

/-- C1 (amended): for every primitive `p` other than `Couple` on which
`inverse(p)` is defined, `inverse(inverse(p)) = Some(p)`. (`Couple` is the
sole exception: `inverse(Couple) = Some(Uncouple)` but
`inverse(Uncouple) = None`.) -/
theorem c1_inverse_involutive_except_couple
    (p q : Primitive) (hp : p ≠ Primitive.Couple)
    (h : Primitive.inverse p = some q) :
    Primitive.inverse q = some p := by
  cases p <;> first
    | exact absurd rfl hp
    | exact Option.noConfusion h
    | (injection h with h; exact h ▸ rfl)

theorem c1_witness :
    (Primitive.Sin ≠ Primitive.Couple ∧
      Primitive.inverse .Sin = some .Asin) ∧
      Primitive.inverse .Asin = some .Sin :=
  ⟨⟨by decide, rfl⟩, c1_inverse_involutive_except_couple .Sin .Asin (by decide) rfl⟩

/-- C2 counterexample: the claim says `Couple` and `Uncouple` map to each
other in both directions, but `inverse(Uncouple)` is `None` — the table in the
source has an arm `Couple => Uncouple` and no arm for `Uncouple`. -/
theorem c2_counterexample :
    Primitive.inverse .Uncouple ≠ some Primitive.Couple ∧
      Primitive.inverse .Uncouple = none :=
  ⟨by decide, rfl⟩

/-- C2 (amended): the inverse table is exactly: Identity, Flip, Neg, Not and
Reverse are self-inverse; the pairs Sin/Asin, Cos/Acos, Roll/Unroll,
Trace/InvTrace, Box/Unbox, Where/InvWhere, Transpose/InvTranspose and
Bits/InverseBits map to each other in both directions; `Couple` maps to
`Uncouple` in one direction only (`inverse(Uncouple) = None`); and
`inverse(p) = None` for every primitive outside the table's domain
(e.g. `Add`). -/
theorem c2_inverse_table_exact :
    (Primitive.inverse .Identity = some .Identity ∧
     Primitive.inverse .Flip = some .Flip ∧
     Primitive.inverse .Neg = some .Neg ∧
     Primitive.inverse .Not = some .Not ∧
     Primitive.inverse .Reverse = some .Reverse ∧
     Primitive.inverse .Sin = some .Asin ∧
     Primitive.inverse .Asin = some .Sin ∧
     Primitive.inverse .Cos = some .Acos ∧
     Primitive.inverse .Acos = some .Cos ∧
     Primitive.inverse .Roll = some .Unroll ∧
     Primitive.inverse .Unroll = some .Roll ∧
     Primitive.inverse .Trace = some .InvTrace ∧
     Primitive.inverse .InvTrace = some .Trace ∧
     Primitive.inverse .Box = some .Unbox ∧
     Primitive.inverse .Unbox = some .Box ∧
     Primitive.inverse .Where = some .InvWhere ∧
     Primitive.inverse .InvWhere = some .Where ∧
     Primitive.inverse .Transpose = some .InvTranspose ∧
     Primitive.inverse .InvTranspose = some .Transpose ∧
     Primitive.inverse .Bits = some .InverseBits ∧
     Primitive.inverse .InverseBits = some .Bits ∧
     Primitive.inverse .Couple = some .Uncouple ∧
     Primitive.inverse .Uncouple = none ∧
     Primitive.inverse .Add = none) ∧
    ∀ p : Primitive, p ∉ inverseDomain → Primitive.inverse p = none := by
  refine ⟨by decide, ?_⟩
  intro p hp
  cases p <;> first
    | rfl
    | exact absurd (by decide) hp

theorem c2_witness :
    Primitive.Gen ∉ inverseDomain ∧ Primitive.inverse .Gen = none :=
  ⟨by decide, c2_inverse_table_exact.2 .Gen (by decide)⟩

theorem execBody_nil (ext : Externals) (fuel : Nat) (st : UiuaState) :
    execBody ext fuel [] st = some (st, none) := by
  cases fuel <;> rfl

theorem pushList_eq (vs : List Value) (st : UiuaState) :
    pushList vs st = { st with stack := vs.reverse ++ st.stack } := by
  induction vs generalizing st with
  | nil => rfl
  | cons v vs ih =>
    show pushList vs (pushVal v st) = _
    rw [ih]
    simp [pushVal]

theorem execBody_result_out (ext : Externals) (fuel : Nat)
    (x : Option (UiuaState × Option UiuaError)) :
    (match x with
     | none => none
     | some (st, none) => execBody ext fuel [] st
     | some (st, some e) => some (st, some e)) = x := by
  rcases x with _ | ⟨st, _ | e⟩
  · rfl
  · exact execBody_nil ext fuel st
  · rfl

/-- Characterization of a failed `Try`: if the guarded call fails with `e`,
the result of `Try` is the handler called on the stack rebuilt as
snapshot-over-payload-over-truncation. -/
theorem try_failure_eq (ext : Externals) (fuel : Nat) (f h : Value)
    (s : List Value) (tc rs sp : Nat) (st2 : UiuaState) (e : UiuaError)
    (hcall : callValue ext fuel f ⟨s, tc, rs, sp⟩ = some (st2, some e)) :
    execBody ext (fuel + 1) [Instr.prim .Try] ⟨f :: h :: s, tc, rs, sp⟩ =
      callValue ext fuel h
        (pushList (cloneStackTop (Value.sigArgs f) s)
          (pushVal e.value
            { st2 with stack := truncateStack (s.length - Value.sigArgs f) st2.stack })) := by
  cases f with
  | func fn =>
    simp only [callValue] at hcall
    simp only [execBody, hcall]
    cases h with
    | func hfn =>
      simp only [callValue]
      split
      · rename_i heq
        exact heq.symm
      · rename_i st6 heq
        exact heq.symm
      · rename_i st6 e2 heq
        exact heq.symm
    | num q => simp [callValue, pushVal, execBody_nil]
    | str m => simp [callValue, pushVal, execBody_nil]
  | num q => simp [callValue] at hcall
  | str m => simp [callValue] at hcall

/-- Characterization of a successful `Try`: the stack is exactly what the
guarded call produced; the snapshot is unused. -/
theorem try_success_eq (ext : Externals) (fuel : Nat) (f h : Value)
    (s : List Value) (tc rs sp : Nat) (st2 : UiuaState)
    (hcall : callValue ext fuel f ⟨s, tc, rs, sp⟩ = some (st2, none)) :
    execBody ext (fuel + 1) [Instr.prim .Try] ⟨f :: h :: s, tc, rs, sp⟩ =
      some (st2, none) := by
  cases f with
  | func fn =>
    simp only [callValue] at hcall
    simp only [execBody, hcall]
  | num q =>
    simp only [callValue, Option.some.injEq, Prod.mk.injEq] at hcall
    obtain ⟨h1, -⟩ := hcall
    subst h1
    simp [execBody, pushVal]
  | str m =>
    simp only [callValue, Option.some.injEq, Prod.mk.injEq] at hcall
    obtain ⟨h1, -⟩ := hcall
    subst h1
    simp [execBody, pushVal]

/-- C3 counterexample: a guarded function that raises the Break loop-control
signal (`Break` run with operand 1 raises `Break(0)`). The claim predicts the
Break error passes through `Try` untouched, i.e. the result would be
`some (_, some (UiuaError.break_ 0 7))`; instead the execution catches it
like any other failure and calls the handler, which pushes `99` above the
failure payload, and `Try` succeeds: the `Try` arm of `Primitive::run` has no
special case for `Break`. -/
theorem c3_counterexample :
    execBody extDefault 9 [Instr.prim .Try]
      ⟨[Value.func ⟨0, 1, [Instr.push (Value.num 1), Instr.prim .Break]⟩,
        Value.func ⟨0, 1, [Instr.push (Value.num 99)]⟩], 0, 0, 7⟩
    = some (⟨[Value.num 99, Value.str "break"], 0, 0, 7⟩, none) := rfl

/-- C3 (amended): executing `Try` catches every failure raised by the guarded
function, *including* the Break loop-control signal: whatever error `e` the
guarded call raises (`Break` or any other), `Try` truncates the stack, pushes
the failure payload and the snapshot, and routes control to the handler —
nothing propagates outward past `Try` uncaught. -/
theorem c3_try_catches_all_including_break (ext : Externals) (fuel : Nat)
    (f h : Value) (s : List Value) (tc rs sp : Nat) (st2 : UiuaState)
    (e : UiuaError)
    (hcall : callValue ext fuel f ⟨s, tc, rs, sp⟩ = some (st2, some e)) :
    execBody ext (fuel + 1) [Instr.prim .Try] ⟨f :: h :: s, tc, rs, sp⟩ =
      callValue ext fuel h
        (pushList (cloneStackTop (Value.sigArgs f) s)
          (pushVal e.value
            { st2 with stack := truncateStack (s.length - Value.sigArgs f) st2.stack })) :=
  try_failure_eq ext fuel f h s tc rs sp st2 e hcall

theorem c3_witness :
    callValue extDefault 8
        (Value.func ⟨0, 1, [Instr.push (Value.num 1), Instr.prim .Break]⟩)
        ⟨[], 0, 0, 7⟩
      = some (⟨[], 0, 0, 7⟩, some (.break_ 0 7)) ∧
    execBody extDefault 9 [Instr.prim .Try]
        ⟨[Value.func ⟨0, 1, [Instr.push (Value.num 1), Instr.prim .Break]⟩,
          Value.func ⟨0, 1, [Instr.push (Value.num 99)]⟩], 0, 0, 7⟩
      = callValue extDefault 8
          (Value.func ⟨0, 1, [Instr.push (Value.num 99)]⟩)
          (pushList
            (cloneStackTop
              (Value.sigArgs
                (Value.func ⟨0, 1, [Instr.push (Value.num 1), Instr.prim .Break]⟩))
              [])
            (pushVal (UiuaError.value (.break_ 0 7))
              { stack := truncateStack (List.length ([] : List Value) - 0) [],
                tagCounter := 0, rngState := 0, span := 7 })) :=
  ⟨rfl, c3_try_catches_all_including_break extDefault 8 _ _ [] 0 0 7 ⟨[], 0, 0, 7⟩
    (.break_ 0 7) rfl⟩

/-- C4: `Try` snapshots the guarded function's declared-arity operands before
the call. On success the stack is exactly what the call produced (the
snapshot is unused); on failure — for a guarded function that consumed at
most its declared operands, leaving `junk ++ below` — the stack is truncated
back to the pre-call size, the failure payload pushed, the original operands
pushed above it in their original order, and the handler is called on that
stack; the portion `below` is unchanged from its pre-call state. -/
theorem c4_try_snapshot_semantics (ext : Externals) (fuel : Nat) (fn : Fn)
    (h : Value) (ops below : List Value) (tc rs sp : Nat)
    (hargs : fn.args = ops.length) :
    (∀ stS,
      callValue ext fuel (Value.func fn) ⟨ops ++ below, tc, rs, sp⟩ =
          some (stS, none) →
        execBody ext (fuel + 1) [Instr.prim .Try]
          ⟨Value.func fn :: h :: (ops ++ below), tc, rs, sp⟩ =
          some (stS, none)) ∧
    (∀ stF e junk,
      callValue ext fuel (Value.func fn) ⟨ops ++ below, tc, rs, sp⟩ =
          some (stF, some e) →
        stF.stack = junk ++ below →
        execBody ext (fuel + 1) [Instr.prim .Try]
          ⟨Value.func fn :: h :: (ops ++ below), tc, rs, sp⟩ =
          callValue ext fuel h
            ⟨ops ++ UiuaError.value e :: below,
             stF.tagCounter, stF.rngState, stF.span⟩) := by
  constructor
  · intro stS hcall
    exact try_success_eq ext fuel _ h _ tc rs sp stS hcall
  · intro stF e junk hcall hstk
    rw [try_failure_eq ext fuel _ h _ tc rs sp stF e hcall]
    congr 1
    rw [pushList_eq]
    simp [cloneStackTop, pushVal, truncateStack, Value.sigArgs, hargs, hstk,
      List.take_left, List.drop_left, List.length_append, Nat.add_sub_cancel,
      Nat.add_sub_cancel_left]

theorem c4_witness :
    (Fn.args ⟨2, 1, [Instr.prim .Pop, Instr.prim .Pop, Instr.push (Value.num 0),
        Instr.push (Value.str "e"), Instr.prim .Assert]⟩ =
      List.length [Value.num 10, Value.num 20]) ∧
    callValue extDefault 9
        (Value.func ⟨2, 1, [Instr.prim .Pop, Instr.prim .Pop,
          Instr.push (Value.num 0), Instr.push (Value.str "e"),
          Instr.prim .Assert]⟩)
        ⟨[Value.num 10, Value.num 20, Value.num 30], 0, 0, 7⟩
      = some (⟨[Value.num 30], 0, 0, 7⟩, some (.throw (Value.str "e") 7)) ∧
    UiuaState.stack ⟨[Value.num 30], 0, 0, 7⟩ = [] ++ [Value.num 30] ∧
    execBody extDefault 10 [Instr.prim .Try]
        ⟨[Value.func ⟨2, 1, [Instr.prim .Pop, Instr.prim .Pop,
            Instr.push (Value.num 0), Instr.push (Value.str "e"),
            Instr.prim .Assert]⟩,
          Value.func ⟨0, 1, [Instr.push (Value.num 99)]⟩,
          Value.num 10, Value.num 20, Value.num 30], 0, 0, 7⟩
      = callValue extDefault 9
          (Value.func ⟨0, 1, [Instr.push (Value.num 99)]⟩)
          ⟨[Value.num 10, Value.num 20] ++
              UiuaError.value (.throw (Value.str "e") 7) :: [Value.num 30],
            0, 0, 7⟩ :=
  ⟨rfl, rfl, rfl,
    (c4_try_snapshot_semantics extDefault 9
        ⟨2, 1, [Instr.prim .Pop, Instr.prim .Pop, Instr.push (Value.num 0),
          Instr.push (Value.str "e"), Instr.prim .Assert]⟩
        (Value.func ⟨0, 1, [Instr.push (Value.num 99)]⟩)
        [Value.num 10, Value.num 20] [Value.num 30] 0 0 7 rfl).2
      ⟨[Value.num 30], 0, 0, 7⟩ (.throw (Value.str "e") 7) [] rfl rfl⟩

theorem asNat_num_one : asNat (Value.num 1) = some 1 := by
  norm_num [asNat]

theorem asNat_eq_one (v : Value) (h : asNat v = some 1) : v = Value.num 1 := by
  cases v with
  | num q =>
    rw [asNat] at h
    split at h
    · rename_i hc
      simp only [Option.some.injEq] at h
      have hnum : q.num = 1 := by omega
      have hden : q.den = (1 : ℚ).den := by rw [hc.1]; rfl
      have : q = 1 := Rat.ext (by rw [hnum]; rfl) hden
      rw [this]
    · simp at h
  | str m => simp [asNat] at h
  | func f => simp [asNat] at h

/-- C7: executing `Assert` pops its two operands (the message from the top,
the condition below it); it succeeds with no further effect exactly when the
condition is the natural number 1, and otherwise raises a user-thrown
failure (`UiuaError::Throw`) carrying the message and the current span. -/
theorem c7_assert_semantics (ext : Externals) (fuel : Nat) (msg cond : Value)
    (s : List Value) (tc rs sp : Nat) :
    (cond = Value.num 1 →
      execBody ext (fuel + 1) [Instr.prim .Assert] ⟨msg :: cond :: s, tc, rs, sp⟩ =
        some (⟨s, tc, rs, sp⟩, none)) ∧
    (cond ≠ Value.num 1 →
      execBody ext (fuel + 1) [Instr.prim .Assert] ⟨msg :: cond :: s, tc, rs, sp⟩ =
        some (⟨s, tc, rs, sp⟩, some (.throw msg sp))) := by
  constructor
  · intro hc
    subst hc
    simp [execBody, asNat_num_one, execBody_nil]
  · intro hc
    have hne : ¬(asNat cond = some 1) := fun hh => hc (asNat_eq_one cond hh)
    simp [execBody, hne]

theorem c7_witness :
    (Value.num 0 ≠ Value.num 1) ∧
    execBody extDefault 5 [Instr.prim .Assert]
        ⟨[Value.str "oops", Value.num 0, Value.num 42], 3, 4, 7⟩ =
      some (⟨[Value.num 42], 3, 4, 7⟩, some (.throw (Value.str "oops") 7)) :=
  ⟨by simp, (c7_assert_semantics extDefault 4 (Value.str "oops") (Value.num 0)
      [Value.num 42] 3 4 7).2 (by simp)⟩

/-- C8: `Gen` is a pure function of its seed operand: executing `Gen` pops
the seed and pushes the `(value, next-seed)` pair `genPair ext q`, which
depends only on the seed `q` (and the deterministic external library), not on
the hidden `Rand` generator state, the tag counter, the span, or the rest of
the stack — two executions from any two contexts with the same seed push the
identical pair, and leave every hidden component unchanged. -/
theorem c8_gen_pure (ext : Externals) (fuel : Nat) (q : Rat)
    (s1 s2 : List Value) (tc1 tc2 rg1 rg2 sp1 sp2 : Nat) :
    execBody ext (fuel + 1) [Instr.prim .Gen] ⟨Value.num q :: s1, tc1, rg1, sp1⟩ =
      some (⟨Value.num (genPair ext q).2 :: Value.num (genPair ext q).1 :: s1,
        tc1, rg1, sp1⟩, none) ∧
    execBody ext (fuel + 1) [Instr.prim .Gen] ⟨Value.num q :: s2, tc2, rg2, sp2⟩ =
      some (⟨Value.num (genPair ext q).2 :: Value.num (genPair ext q).1 :: s2,
        tc2, rg2, sp2⟩, none) := by
  have key : ∀ (s : List Value) (tc rg sp : Nat),
      execBody ext (fuel + 1) [Instr.prim .Gen] ⟨Value.num q :: s, tc, rg, sp⟩ =
        some (⟨Value.num (genPair ext q).2 :: Value.num (genPair ext q).1 :: s,
          tc, rg, sp⟩, none) := by
    intro s tc rg sp
    rcases hF : ext.rngGenF64 (ext.seedFromU64 (ext.f64ToBits q)) with ⟨v, r1⟩
    rcases hU : ext.rngGenU64 r1 with ⟨b, r2⟩
    simp [execBody, asNum, genPair, hF, hU, execBody_nil]
  exact ⟨key s1 tc1 rg1 sp1, key s2 tc2 rg2 sp2⟩

theorem tagStack_snoc (tc n : Nat) :
    tagStack (tc + 1) n ++ [Value.num (tc : Rat)] = tagStack tc (n + 1) := by
  induction n with
  | zero => simp [tagStack]
  | succ n ih =>
    have hn : (tc + 1) + n = tc + (n + 1) := by omega
    show Value.num (((tc + 1) + n : Nat) : Rat) ::
        (tagStack (tc + 1) n ++ [Value.num (tc : Rat)]) =
      Value.num ((tc + (n + 1) : Nat) : Rat) :: tagStack tc (n + 1)
    rw [ih, hn]

/-- C9: `N` sequential `Tag` executions on one unit succeed and push `N`
strictly increasing counter values: starting from counter `tc`, the stack
gains `[num (tc+N-1), ..., num (tc+1), num tc]` (most recent on top, i.e.
values strictly increasing in push order, as the `Pairwise` conjunct
states) and the counter advances to `tc + N`. -/
theorem c9_tag_monotonic (ext : Externals) (n : Nat) (fuel : Nat)
    (st : UiuaState) (hfuel : n ≤ fuel) :
    execBody ext fuel (List.replicate n (Instr.prim .Tag)) st =
      some ({ st with stack := tagStack st.tagCounter n ++ st.stack,
                      tagCounter := st.tagCounter + n }, none) ∧
    List.Pairwise (· < ·) ((List.range n).map (st.tagCounter + ·)) := by
  constructor
  · induction n generalizing fuel st with
    | zero => simp [tagStack, execBody_nil]
    | succ n ih =>
      obtain ⟨f, rfl⟩ : ∃ f, fuel = f + 1 := ⟨fuel - 1, by omega⟩
      have hstep : execBody ext (f + 1) (List.replicate (n + 1) (Instr.prim .Tag)) st =
          execBody ext f (List.replicate n (Instr.prim .Tag))
            { st with stack := Value.num (st.tagCounter : Rat) :: st.stack,
                      tagCounter := st.tagCounter + 1 } := rfl
      rw [hstep, ih f _ (by omega)]
      have hstack : tagStack (st.tagCounter + 1) n ++
          (Value.num (st.tagCounter : Rat) :: st.stack) =
          tagStack st.tagCounter (n + 1) ++ st.stack := by
        rw [show (Value.num (st.tagCounter : Rat) :: st.stack) =
          [Value.num (st.tagCounter : Rat)] ++ st.stack from rfl,
          ← List.append_assoc, tagStack_snoc]
      have hc : st.tagCounter + 1 + n = st.tagCounter + (n + 1) := by omega
      show some ((⟨tagStack (st.tagCounter + 1) n ++
          (Value.num (st.tagCounter : Rat) :: st.stack),
          st.tagCounter + 1 + n, st.rngState, st.span⟩ : UiuaState), none) = _
      rw [hstack, hc]
  · exact (List.pairwise_lt_range n).map _ (fun a b hab => by omega)

theorem c9_witness :
    3 ≤ 5 ∧
    (execBody extDefault 5 (List.replicate 3 (Instr.prim .Tag)) ⟨[], 4, 0, 7⟩ =
      some (⟨tagStack 4 3 ++ [], 4 + 3, 0, 7⟩, none) ∧
    List.Pairwise (· < ·) ((List.range 3).map (4 + ·))) :=
  ⟨by decide, c9_tag_monotonic extDefault 3 5 ⟨[], 4, 0, 7⟩ (by decide)⟩

/-- C5 counterexample: at the two-character input `"ea"`, exactly one
prefix-search candidate matches (`each`, glyph `∵`), so the claim's rule —
which states no minimum length for the prefix search — yields
`Some(Each)`; but `from_format_name` returns `None`: the code only attempts
the prefix search for inputs of byte length at least 3
(`if name.len() < 3 { return None; }`). -/
theorem c5_counterexample :
    fromFormatNameClaimed "ea".toList = some Primitive.Each ∧
      fromFormatName "ea".toList = none :=
  ⟨by decide, by decide⟩

theorem find?_none_no_text (s : List Char)
    (hf : Primitive.all.find? (fun p => textMatches p s) = none) :
    (Primitive.all.filter fun p => glyphPrefixMatches p s).filter
      (fun p => textMatches p s) = [] := by
  rw [List.filter_eq_nil_iff]
  intro a ha
  have := List.find?_eq_none.mp hf a (List.mem_of_mem_filter ha)
  simpa using this

/-- C5 (amended): `from_format_name` implements exactly the claim's staged
rule — reject any input containing an uppercase character or of byte length
< 2; the fixed short names `id`, `ga`, `di`, `pi`, `&n`; otherwise the
primitive whose text name equals the input exactly, if one exists; otherwise,
*for inputs of byte length at least 3 only*, the search over primitives whose
glyph is non-ASCII and whose text name starts with the input, returning
`Some` iff the input equals a candidate's name exactly or exactly one
candidate matches, and `None` when two or more non-exact candidates match —
and `from_format_name("re") = None`, `from_format_name("rev") =
Some(Reverse)`, `from_format_name("resh") = Some(Reshape)`. -/
theorem c5_from_format_name_spec :
    (∀ s : List Char, fromFormatName s = fromFormatNameSpec s) ∧
    fromFormatName "re".toList = none ∧
    fromFormatName "rev".toList = some Primitive.Reverse ∧
    fromFormatName "resh".toList = some Primitive.Reshape := by
  refine ⟨?_, by decide, by decide, by decide⟩
  intro s
  unfold fromFormatName fromFormatNameSpec
  split_ifs <;>
    first
    | rfl
    | (cases hf : Primitive.all.find? (fun p => textMatches p s) with
       | some p => rfl
       | none =>
         first
         | rfl
         | (simp only [find?_none_no_text s hf]
            cases hc : Primitive.all.filter (fun p => glyphPrefixMatches p s) with
            | nil => rfl
            | cons res rest =>
              have hres : textMatches res s = false := by
                have := List.find?_eq_none.mp hf res
                  (List.mem_of_mem_filter (hc ▸ List.mem_cons_self res rest))
                simpa using this
              cases rest with
              | nil => simp [hres]
              | cons b t => simp [hres]))

theorem all_names_ascii :
    (Primitive.all.all fun p =>
      (p.names).all fun n => n.text.toList.all fun c => decide (c.toNat < 0x80)) = true := by
  decide

theorem rustUtf8Len_ascii (c : Char) (h : c.toNat < 0x80) : rustUtf8Len c = 1 := by
  rw [rustUtf8Len, if_pos h]

theorem mem_of_two_isPrefixOf (a b : Char) (l : List Char)
    (h : List.isPrefixOf [a, b] l = true) : a ∈ l ∧ b ∈ l := by
  match l with
  | [] => simp [List.isPrefixOf] at h
  | [c] => simp [List.isPrefixOf] at h
  | c :: d :: l2 =>
    simp only [List.isPrefixOf, Bool.and_eq_true, beq_iff_eq] at h
    obtain ⟨rfl, rfl, -⟩ := h
    exact ⟨by simp, by simp⟩

/-- C10: for every input of exactly 2 scalars that is none of the five
short-name exceptions and is not the exact text name of any primitive,
`from_format_name` returns `None`: the prefix search is gated on byte length
at least 3, and since every registry text name is ASCII, a 2-scalar input of
byte length 3 or more (one containing a multi-byte scalar) cannot be a
prefix of a name either — so prefix matching is observably only attempted
for inputs of 3 scalars or more, even when the 2-character string would be
the unique prefix of exactly one eligible primitive name. -/
theorem c10_two_char_no_prefix_match (s : List Char) (h2 : s.length = 2)
    (hid : s ≠ "id".toList) (hga : s ≠ "ga".toList) (hdi : s ≠ "di".toList)
    (hpi : s ≠ "pi".toList) (hn : s ≠ "&n".toList)
    (hex : Primitive.all.find? (fun p => textMatches p s) = none) :
    fromFormatName s = none := by
  obtain ⟨a, b, rfl⟩ := List.length_eq_two.mp h2
  unfold fromFormatName
  by_cases hup : ([a, b].any charIsUppercase) = true
  · rw [if_pos hup]
  · rw [if_neg hup]
    by_cases hb2 : byteLen [a, b] < 2
    · rw [if_pos hb2]
    · rw [if_neg hb2, if_neg hid, if_neg hga, if_neg hdi, if_neg hpi, if_neg hn]
      simp only [hex]
      by_cases hb3 : byteLen [a, b] < 3
      · rw [if_pos hb3]
      · rw [if_neg hb3]
        have hfilter :
            Primitive.all.filter (fun p => glyphPrefixMatches p [a, b]) = [] := by
          rw [List.filter_eq_nil_iff]
          intro p hp hmatch
          rw [glyphPrefixMatches] at hmatch
          cases hnm : p.names with
          | none => rw [hnm] at hmatch; simp [Option.any] at hmatch
          | some n =>
            rw [hnm] at hmatch
            simp only [Option.any_some, Bool.and_eq_true] at hmatch
            obtain ⟨hamem, hbmem⟩ := mem_of_two_isPrefixOf a b _ hmatch.2
            have h1 : ((p.names).all fun n =>
                n.text.toList.all fun c => decide (c.toNat < 0x80)) = true :=
              List.all_eq_true.mp all_names_ascii p hp
            rw [hnm] at h1
            have h2 : (n.text.toList.all fun c => decide (c.toNat < 0x80)) = true := h1
            have ha : a.toNat < 0x80 :=
              of_decide_eq_true (List.all_eq_true.mp h2 a hamem)
            have hbb : b.toNat < 0x80 :=
              of_decide_eq_true (List.all_eq_true.mp h2 b hbmem)
            have hbl : byteLen [a, b] = 2 := by
              simp [byteLen, rustUtf8Len_ascii a ha, rustUtf8Len_ascii b hbb]
            omega
        rw [hfilter]

theorem c10_witness :
    (['x', 'q'] : List Char).length = 2 ∧
    (['x', 'q'] ≠ "id".toList ∧ ['x', 'q'] ≠ "ga".toList ∧
     ['x', 'q'] ≠ "di".toList ∧ ['x', 'q'] ≠ "pi".toList ∧
     ['x', 'q'] ≠ "&n".toList) ∧
    Primitive.all.find? (fun p => textMatches p ['x', 'q']) = none ∧
    fromFormatName ['x', 'q'] = none :=
  ⟨rfl, ⟨by decide, by decide, by decide, by decide, by decide⟩, by decide,
   c10_two_char_no_prefix_match ['x', 'q'] rfl (by decide) (by decide)
     (by decide) (by decide) (by decide) (by decide)⟩

theorem firstResolve_descLens_some (cs : List Char) (start : Nat) :
    ∀ (n l : Nat) (p : Primitive),
      firstResolve cs start (descLens n) = some (l, p) →
      2 ≤ l ∧ l ≤ n ∧ fromFormatName ((cs.drop start).take l) = some p ∧
        ∀ l', l < l' → l' ≤ n → fromFormatName ((cs.drop start).take l') = none
  | 0, l, p => by simp [descLens, firstResolve]
  | 1, l, p => by simp [descLens, firstResolve]
  | n + 2, l, p => by
    intro h
    rw [descLens, firstResolve] at h
    cases hr : fromFormatName ((cs.drop start).take (n + 2)) with
    | some q =>
      rw [hr] at h
      simp only [Option.some.injEq, Prod.mk.injEq] at h
      obtain ⟨rfl, rfl⟩ := h
      refine ⟨by omega, by omega, hr, ?_⟩
      intro l' hl hl'
      exact absurd rfl (by omega : ¬(l' = l'))
    | none =>
      rw [hr] at h
      obtain ⟨h2l, hln, hres, hnone⟩ :=
        firstResolve_descLens_some cs start (n + 1) l p h
      refine ⟨h2l, by omega, hres, ?_⟩
      intro l' hl hl'
      rcases Nat.lt_or_ge l' (n + 2) with hc | hc
      · exact hnone l' hl (by omega)
      · have hl2 : l' = n + 2 := by omega
        rw [hl2]
        exact hr

theorem firstResolve_descLens_complete (cs : List Char) (start : Nat) :
    ∀ (n l : Nat) (p : Primitive),
      2 ≤ l → l ≤ n →
      fromFormatName ((cs.drop start).take l) = some p →
      (∀ l', l < l' → l' ≤ n → fromFormatName ((cs.drop start).take l') = none) →
      firstResolve cs start (descLens n) = some (l, p)
  | 0, l, p => by intro h2l hln; omega
  | 1, l, p => by intro h2l hln; omega
  | n + 2, l, p => by
    intro h2l hln hres hnone
    rw [descLens, firstResolve]
    by_cases hl : l = n + 2
    · subst hl
      rw [hres]
    · have hn2 : fromFormatName ((cs.drop start).take (n + 2)) = none :=
        hnone (n + 2) (by omega) (by omega)
      rw [hn2]
      exact firstResolve_descLens_complete cs start (n + 1) l p h2l (by omega)
        hres (fun l' hl' hle => hnone l' hl' (by omega))

theorem multiLoop_sound (cs : List Char) :
    ∀ (fuel start : Nat) (segs : List (Primitive × List Char)),
      multiLoop cs fuel start = some segs →
      GreedySeg cs start segs
  | 0, start, segs => by simp [multiLoop]
  | fuel + 1, start, segs => by
    intro h
    rw [multiLoop] at h
    by_cases he : start = cs.length
    · rw [if_pos he] at h
      simp only [Option.some.injEq] at h
      subst h
      subst he
      exact GreedySeg.done
    · rw [if_neg he] at h
      cases hfr : firstResolve cs start (descLens (cs.length - start)) with
      | none => rw [hfr] at h; exact absurd h (by simp)
      | some lp =>
        obtain ⟨l, p⟩ := lp
        rw [hfr] at h
        dsimp only at h
        cases hm : multiLoop cs fuel (start + l) with
        | none => rw [hm] at h; exact absurd h (by simp)
        | some rest =>
          rw [hm] at h
          simp only [Option.map_some', Option.some.injEq] at h
          subst h
          obtain ⟨h2l, hln, hres, hnone⟩ :=
            firstResolve_descLens_some cs start _ l p hfr
          exact GreedySeg.step start l p rest h2l hln hres hnone
            (multiLoop_sound cs fuel (start + l) rest hm)

theorem multiLoop_complete (cs : List Char) (start : Nat)
    (segs : List (Primitive × List Char)) (hg : GreedySeg cs start segs) :
    ∀ fuel, cs.length - start < 2 * fuel →
      multiLoop cs fuel start = some segs := by
  induction hg with
  | done =>
    intro fuel hf
    obtain ⟨f, rfl⟩ : ∃ f, fuel = f + 1 := ⟨fuel - 1, by omega⟩
    rw [multiLoop, if_pos rfl]
  | step start len p rest h2l hlen hres hnone hg ih =>
    intro fuel hf
    obtain ⟨f, rfl⟩ : ∃ f, fuel = f + 1 := ⟨fuel - 1, by omega⟩
    rw [multiLoop]
    rw [if_neg (by omega : ¬ start = cs.length)]
    rw [firstResolve_descLens_complete cs start (cs.length - start) len p h2l
      hlen hres hnone]
    dsimp only
    rw [ih f (by omega)]
    rfl

/-- C6: `from_format_name_multi` segments its input by scalar position into
an ordered primitive sequence exactly per the greedy rule `GreedySeg`: at
each offset it commits to the longest substring length (from the remaining
length down to 2) that `from_format_name` resolves, never backtracking, and
returns `None` when the input has fewer than 2 scalar positions or some
offset has no resolving length; in particular `"rev"` is one `Reverse`
segment, `"revrev"` two `Reverse` segments, `"tabkee"` is `Table` then
`Keep`, and `"foo"` fails. -/
theorem c6_from_format_name_multi_greedy :
    (∀ (cs : List Char) (segs : List (Primitive × List Char)),
      fromFormatNameMulti cs = some segs ↔ 2 ≤ cs.length ∧ GreedySeg cs 0 segs) ∧
    fromFormatNameMulti "rev".toList = some [(Primitive.Reverse, "rev".toList)] ∧
    fromFormatNameMulti "revrev".toList =
      some [(Primitive.Reverse, "rev".toList), (Primitive.Reverse, "rev".toList)] ∧
    fromFormatNameMulti "tabkee".toList =
      some [(Primitive.Table, "tab".toList), (Primitive.Keep, "kee".toList)] ∧
    fromFormatNameMulti "foo".toList = none := by
  refine ⟨?_, by decide, by decide, by decide, by decide⟩
  intro cs segs
  constructor
  · intro h
    rw [fromFormatNameMulti] at h
    by_cases hl : cs.length < 2
    · rw [if_pos hl] at h
      exact absurd h (by simp)
    · rw [if_neg hl] at h
      exact ⟨by omega, multiLoop_sound cs cs.length 0 segs h⟩
  · rintro ⟨h2, hg⟩
    rw [fromFormatNameMulti, if_neg (by omega : ¬ cs.length < 2)]
    exact multiLoop_complete cs 0 segs hg cs.length (by omega)
